import Mathlib

/-!
Shallow embedding of the JSON-file datastore
(`datastore/src/json_file.rs`) and its query pipeline, together with
proofs of the specification claims about it.

The in-memory `HashMap<String, T>` is modelled as an association list
`List (String × T)`; insertion replaces the value of an existing key and
otherwise appends, which matches `HashMap::insert` up to iteration order
(the hash map's iteration order is unspecified, and no claim depends on
it).  Serde's JSON values are modelled by the inductive `Value`; the
(de)serialization of the value type `T` is a `Codec` record, with the
serde round-trip law taken as a hypothesis where a claim needs it.  The
filesystem is modelled as the content of the single destination path
(`Option FileRepr`), and fallible I/O steps of `flush` are modelled by
boolean outcome flags in a `FlushEnv`.
-/

set_option autoImplicit false

namespace JsonDatastore

/-- A JSON document, as produced by `serde_json::Value`. -/
inductive Value where
  | null
  | bool (b : Bool)
  | num (n : Int)
  | str (s : String)
  | arr (elems : List Value)
  | obj (fields : List (String × Value))

/-- I/O errors, tracking the `std::io::ErrorKind` the code constructs. -/
inductive IoError where
  | invalidData (msg : String)
  | other (msg : String)
deriving DecidableEq

/-- Content of the destination path: an existing file is either empty
(zero bytes), holds a valid JSON document, or holds bytes that are not
valid JSON. -/
inductive FileRepr where
  | empty
  | json (v : Value)
  | notJson

/-- The serde `Serialize`/`DeserializeOwned` pair for the value type `T`:
`to_value` always succeeds (the code unwraps it), `from_value` can fail. -/
structure Codec (T : Type) where
  to_value : T → Value
  from_value : Value → Option T

/-- `JsonFileDatastore<T>`: the file path (of which only the existence of
a parent directory is relevant to the code) and the in-memory mapping. -/
structure JsonFileDatastore (T : Type) where
  path_has_parent : Bool
  content : List (String × T)

/-- `HashMap::get` (`content.get(key).cloned()`). -/
def mapGet {T : Type} : List (String × T) → String → Option T
  | [], _ => none
  | kv :: rest, k => if kv.1 = k then some kv.2 else mapGet rest k

/-- `HashMap::contains_key`. -/
def mapContains {T : Type} : List (String × T) → String → Bool
  | [], _ => false
  | kv :: rest, k => if kv.1 = k then true else mapContains rest k

/-- `HashMap::insert`: replace the value of an existing key, otherwise
add the entry. -/
def mapInsert {T : Type} (m : List (String × T)) (k : String) (v : T) :
    List (String × T) :=
  match m with
  | [] => [(k, v)]
  | kv :: rest => if kv.1 = k then (k, v) :: rest else kv :: mapInsert rest k v

/-- `HashMap::remove`: returns the removed value (if any) and the
remaining mapping. -/
def mapRemove {T : Type} : List (String × T) → String → Option T × List (String × T)
  | [], _ => (none, [])
  | kv :: rest, k =>
    if kv.1 = k then (some kv.2, rest)
    else
      let r := mapRemove rest k
      (r.1, kv :: r.2)

/-- The decoding loop of `JsonFileDatastore::new` over the fields of the
top-level JSON object: each value is decoded by `from_value`; the first
failure aborts the whole load with an `InvalidData` error. -/
def loadObjectGo {T : Type} (c : Codec T) :
    List (String × Value) → List (String × T) →
    Except IoError (List (String × T))
  | [], out => .ok out
  | kv :: rest, out =>
    match c.from_value kv.2 with
    | some v => loadObjectGo c rest (mapInsert out kv.1 v)
    | none => .error (.invalidData "invalid value")

/-- `JsonFileDatastore::new`: open or create the datastore at a path.
`pathHasParent` abstracts `path.parent().is_some()`; `fs` is the current
content of the path (`none` when the path does not exist). -/
def new {T : Type} (c : Codec T) (pathHasParent : Bool) (fs : Option FileRepr) :
    Except IoError (JsonFileDatastore T) :=
  match fs with
  | none => .ok ⟨pathHasParent, []⟩
  | some .empty => .ok ⟨pathHasParent, []⟩
  | some .notJson => .error (.invalidData "JSON parse error")
  | some (.json v) =>
    match v with
    | .null => .ok ⟨pathHasParent, []⟩
    | .obj fields =>
      match loadObjectGo c fields [] with
      | .ok m => .ok ⟨pathHasParent, m⟩
      | .error e => .error e
    | _ => .error (.invalidData "expected JSON object")

/-- Outcomes of the fallible filesystem steps inside `flush`. -/
structure FlushEnv where
  tempCreateOk : Bool
  writeOk : Bool
  syncOk : Bool
  persistOk : Bool

/-- The result of a `flush` call: the returned value, the content of the
destination path afterwards, and whether a temporary file was created /
written (to express that early failures touch nothing). -/
structure FlushOutcome where
  result : Except IoError Unit
  dest : Option FileRepr
  tempCreated : Bool
  wrote : Bool

/-- The JSON object `flush` serializes: the whole mapping, each value
encoded by `to_value`. -/
def serializeContent {T : Type} (c : Codec T) (m : List (String × T)) :
    List (String × Value) :=
  m.map fun kv => (kv.1, c.to_value kv.2)

/-- `JsonFileDatastore::flush`: fail if the path has no parent directory;
otherwise create a temporary file in that directory, write the serialized
mapping, sync, and atomically persist over the destination.  Every
failure leaves the destination (`dest`) as it was. -/
def flush {T : Type} (c : Codec T) (ds : JsonFileDatastore T) (env : FlushEnv)
    (dest : Option FileRepr) : FlushOutcome :=
  if ds.path_has_parent = false then
    ⟨.error (.other "couldn't get parent directory of destination"), dest, false, false⟩
  else if env.tempCreateOk = false then
    ⟨.error (.other "temporary file creation failed"), dest, false, false⟩
  else if env.writeOk = false then
    ⟨.error (.other "write failed"), dest, true, false⟩
  else if env.syncOk = false then
    ⟨.error (.other "sync_data failed"), dest, true, true⟩
  else if env.persistOk = false then
    ⟨.error (.other "persist failed"), dest, true, true⟩
  else
    ⟨.ok (), some (.json (.obj (serializeContent c ds.content))), true, true⟩

/-- `Datastore::put`. -/
def put {T : Type} (ds : JsonFileDatastore T) (k : String) (v : T) :
    JsonFileDatastore T :=
  ⟨ds.path_has_parent, mapInsert ds.content k v⟩

/-- `Datastore::get`. -/
def get {T : Type} (ds : JsonFileDatastore T) (k : String) : Option T :=
  mapGet ds.content k

/-- `Datastore::has`. -/
def has {T : Type} (ds : JsonFileDatastore T) (k : String) : Bool :=
  mapContains ds.content k

/-- `Datastore::delete`: returns whether an entry was removed, and the
datastore afterwards. -/
def delete {T : Type} (ds : JsonFileDatastore T) (k : String) :
    Bool × JsonFileDatastore T :=
  let r := mapRemove ds.content k
  (r.1.isSome, ⟨ds.path_has_parent, r.2⟩)

/-- Lexicographic comparison of character lists. -/
def cmpChars : List Char → List Char → Ordering
  | [], [] => .eq
  | [], _ :: _ => .lt
  | _ :: _, [] => .gt
  | a :: as_, b :: bs =>
    match compare a b with
    | .eq => cmpChars as_ bs
    | r => r

/-- Rust's `Ord for String` (byte-wise lexicographic; UTF-8 byte order
coincides with code-point order, so this is character-wise comparison). -/
def strCmp (a b : String) : Ordering :=
  cmpChars a.data b.data

/-- Rust's `str::starts_with`. -/
def strStartsWith (s p : String) : Bool :=
  List.isPrefixOf p.data s.data

/-- Comparison operators of a filter (`FilterOp` in `query.rs`). -/
inductive FilterOp where
  | equal
  | notEqual
  | less
  | lessOrEqual
  | greater
  | greaterOrEqual

/-- What a filter compares: the entry's value or its key, against a
literal (`FilterTy` in `query.rs`). -/
inductive FilterTy (T : Type) where
  | valueCompare (literal : T)
  | keyCompare (literal : String)

/-- A single filter predicate. -/
structure Filter (T : Type) where
  ty : FilterTy T
  operation : FilterOp

/-- A sort criterion (`Order` in `query.rs`). -/
inductive Order where
  | byValueAsc
  | byValueDesc
  | byKeyAsc
  | byKeyDesc

/-- The declarative query descriptor.  `prefix_str` models the `prefix`
field (renamed: `prefix` is a Lean keyword); `limit` models the `u64`
limit as a natural number (unbounded = `2 ^ 64 - 1`). -/
structure Query (T : Type) where
  prefix_str : String
  filters : List (Filter T)
  orders : List Order
  skip : Nat
  limit : Nat
  keys_only : Bool

/-- Truth of a comparison operator given the `Ordering` of the compared
value against the filter's literal. -/
def FilterOp.passes (op : FilterOp) (o : Ordering) : Bool :=
  match op with
  | .equal => o = .eq
  | .notEqual => o ≠ .eq
  | .less => o = .lt
  | .lessOrEqual => o ≠ .gt
  | .greater => o = .gt
  | .greaterOrEqual => o ≠ .lt

/-- Whether the entry `(k, v)` satisfies the filter, using the value
type's comparison `cmp`. -/
def filterPasses {T : Type} (cmp : T → T → Ordering) (f : Filter T)
    (k : String) (v : T) : Bool :=
  match f.ty with
  | .valueCompare lit => f.operation.passes (cmp v lit)
  | .keyCompare lit => f.operation.passes (strCmp k lit)

/-- Comparison of two entries under one sort criterion. -/
def orderCmp {T : Type} (cmp : T → T → Ordering) (o : Order)
    (a b : String × T) : Ordering :=
  match o with
  | .byKeyAsc => strCmp a.1 b.1
  | .byKeyDesc => strCmp b.1 a.1
  | .byValueAsc => cmp a.2 b.2
  | .byValueDesc => cmp b.2 a.2

/-- Comparison of two entries under a list of sort criteria, applied in
order as a tie-break chain. -/
def ordersCmp {T : Type} (cmp : T → T → Ordering) (os : List Order)
    (a b : String × T) : Ordering :=
  match os with
  | [] => .eq
  | o :: rest =>
    match orderCmp cmp o a b with
    | .eq => ordersCmp cmp rest a b
    | r => r

/-- Stable insertion of `x` into `l`: `x` goes before the first element
it does not compare strictly greater than. -/
def insertBy {α : Type} (c : α → α → Ordering) (x : α) : List α → List α
  | [] => [x]
  | y :: ys => if c x y = .gt then y :: insertBy c x ys else x :: y :: ys

/-- Stable insertion sort by a comparison function. -/
def sortBy {α : Type} (c : α → α → Ordering) : List α → List α
  | [] => []
  | x :: xs => insertBy c x (sortBy c xs)

/-- Modelled from the spec: the entries surviving the first two stages
of the query pipeline of `query.rs` (not among the sources) — prefix
selection (§4.2 stage 1), then the filters in order, conjunctively
(§4.2 stage 2). -/
def survivors {T : Type} (cmp : T → T → Ordering)
    (entries : List (String × T)) (q : Query T) : List (String × T) :=
  let afterPrefix := entries.filter fun kv => strStartsWith kv.1 q.prefix_str
  q.filters.foldl (fun acc f => acc.filter fun kv => filterPasses cmp f kv.1 kv.2)
    afterPrefix

/-- Modelled from the spec: `naive_apply_query` of `query.rs` (not among
the sources), per §4.2 — prefix selection, conjunctive filters in order,
stable sort by the order criteria as a tie-break chain, then `skip` /
`limit` pagination. -/
def naive_apply_query {T : Type} (cmp : T → T → Ordering)
    (entries : List (String × T)) (q : Query T) : List (String × T) :=
  let ordered := sortBy (ordersCmp cmp q.orders) (survivors cmp entries q)
  (ordered.drop q.skip).take q.limit

/-- `Datastore::query` for `JsonFileDatastore` (from `json_file.rs`):
substitute the value type's default (`dflt`) for every value when
`keys_only` is set, then run the pipeline; the result is an eagerly
collected sequence. -/
def query {T : Type} (cmp : T → T → Ordering) (dflt : T)
    (ds : JsonFileDatastore T) (q : Query T) : List (String × T) :=
  let content_stream := ds.content.map fun kv =>
    (kv.1, if q.keys_only then dflt else kv.2)
  naive_apply_query cmp content_stream q

/-! ### Concrete instantiation: `T = Vec<u8>`, modelled as `List Nat`
(the tests use `JsonFileDatastore::<Vec<u8>>`). -/

/-- Lexicographic comparison of byte vectors (`Ord for Vec<u8>`). -/
def cmpBytes : List Nat → List Nat → Ordering
  | [], [] => .eq
  | [], _ :: _ => .lt
  | _ :: _, [] => .gt
  | a :: as_, b :: bs =>
    match compare a b with
    | .eq => cmpBytes as_ bs
    | r => r

/-- Element-wise decoding of a JSON array into bytes, failing on the
first element that is not a (non-negative) number. -/
def decodeBytes : List Value → Option (List Nat)
  | [] => some []
  | e :: rest =>
    match e with
    | .num n =>
      if 0 ≤ n then
        match decodeBytes rest with
        | some l => some (n.toNat :: l)
        | none => none
      else none
    | _ => none

/-- The serde JSON codec for `Vec<u8>`: a JSON array of numbers. -/
def bytesCodec : Codec (List Nat) where
  to_value l := .arr (l.map fun n => .num (Int.ofNat n))
  from_value v :=
    match v with
    | .arr elems => decodeBytes elems
    | _ => none

/-- Calling `put` for each pair of a list in order. -/
def putAll {T : Type} (ds : JsonFileDatastore T) (pairs : List (String × T)) :
    JsonFileDatastore T :=
  pairs.foldl (fun d kv => put d kv.1 kv.2) ds

/-- A file whose load must be rejected by `new`: bytes that are not
valid JSON, valid JSON whose top level is neither an object nor `null`,
or a JSON object in which some value fails to decode into `T`. -/
def badFile {T : Type} (c : Codec T) : FileRepr → Prop
  | .empty => False
  | .notJson => True
  | .json v =>
    match v with
    | .null => False
    | .bool _ => True
    | .num _ => True
    | .str _ => True
    | .arr _ => True
    | .obj fields => ∃ kv ∈ fields, c.from_value kv.2 = none

/-! ### Lemmas about the association-list map operations -/

theorem mapGet_insert_self {T : Type} (m : List (String × T)) (k : String) (v : T) :
    mapGet (mapInsert m k v) k = some v := by
  induction m with
  | nil => simp [mapInsert, mapGet]
  | cons kv rest ih =>
    by_cases h : kv.1 = k
    · simp [mapInsert, h, mapGet]
    · simp [mapInsert, h, mapGet, ih]

theorem mapGet_insert_ne {T : Type} (m : List (String × T)) (k k' : String)
    (v : T) (h : k' ≠ k) : mapGet (mapInsert m k v) k' = mapGet m k' := by
  have h2 : k ≠ k' := Ne.symm h
  induction m with
  | nil => simp [mapInsert, mapGet, h2]
  | cons kv rest ih =>
    by_cases hk : kv.1 = k
    · have h3 : kv.1 ≠ k' := by rw [hk]; exact h2
      simp [mapInsert, hk, mapGet, h2, h3]
    · simp only [mapInsert, hk, if_false, mapGet]
      by_cases hk' : kv.1 = k'
      · simp [hk']
      · simp [hk', ih]

theorem mapContains_eq_isSome {T : Type} (m : List (String × T)) (k : String) :
    mapContains m k = (mapGet m k).isSome := by
  induction m with
  | nil => simp [mapContains, mapGet]
  | cons kv rest ih =>
    by_cases h : kv.1 = k
    · simp [mapContains, mapGet, h]
    · simp [mapContains, mapGet, h, ih]

theorem length_mapInsert_present {T : Type} (m : List (String × T)) (k : String)
    (v : T) (h : (mapGet m k).isSome = true) :
    (mapInsert m k v).length = m.length := by
  induction m with
  | nil => simp [mapGet] at h
  | cons kv rest ih =>
    by_cases hk : kv.1 = k
    · simp [mapInsert, hk]
    · simp only [mapGet, hk, if_false] at h
      simp [mapInsert, hk, ih h]

theorem mapGet_of_not_mem_keys {T : Type} (m : List (String × T)) (k : String)
    (h : k ∉ m.map Prod.fst) : mapGet m k = none := by
  induction m with
  | nil => simp [mapGet]
  | cons kv rest ih =>
    simp only [List.map_cons, List.mem_cons, not_or] at h
    have h3 : kv.1 ≠ k := Ne.symm h.1
    simp [mapGet, h3, ih h.2]

theorem mapRemove_fst {T : Type} (m : List (String × T)) (k : String) :
    (mapRemove m k).1 = mapGet m k := by
  induction m with
  | nil => simp [mapRemove, mapGet]
  | cons kv rest ih =>
    by_cases h : kv.1 = k
    · simp [mapRemove, mapGet, h]
    · simp [mapRemove, mapGet, h, ih]

theorem mapRemove_absent {T : Type} (m : List (String × T)) (k : String)
    (h : mapGet m k = none) : (mapRemove m k).2 = m := by
  induction m with
  | nil => simp [mapRemove]
  | cons kv rest ih =>
    by_cases hk : kv.1 = k
    · simp [mapGet, hk] at h
    · simp only [mapGet, hk, if_false] at h
      simp [mapRemove, hk, ih h]

theorem mapGet_mapRemove_self {T : Type} (m : List (String × T)) (k : String)
    (h : (m.map Prod.fst).Nodup) : mapGet (mapRemove m k).2 k = none := by
  induction m with
  | nil => simp [mapRemove, mapGet]
  | cons kv rest ih =>
    simp only [List.map_cons, List.nodup_cons] at h
    by_cases hk : kv.1 = k
    · simp only [mapRemove, hk, if_true]
      exact mapGet_of_not_mem_keys rest k (hk ▸ h.1)
    · simp [mapRemove, hk, mapGet, ih h.2]

theorem mapGet_mapRemove_ne {T : Type} (m : List (String × T)) (k k' : String)
    (h : k' ≠ k) : mapGet (mapRemove m k).2 k' = mapGet m k' := by
  induction m with
  | nil => simp [mapRemove]
  | cons kv rest ih =>
    by_cases hk : kv.1 = k
    · have h2 : kv.1 ≠ k' := by rw [hk]; exact Ne.symm h
      simp [mapRemove, hk, mapGet, h2, Ne.symm h]
    · simp only [mapRemove, hk, if_false, mapGet]
      by_cases hk' : kv.1 = k'
      · simp [hk']
      · simp [hk', ih]

/-! ### Claim theorems: mutation operations and flush failure paths -/

/-- C7: `delete` on an absent key returns `false` and leaves the mapping
unchanged; on a present key it returns `true`, the key subsequently
reports absent via both `has` and `get`, and every other entry is
unchanged.  The datastore's key-uniqueness invariant (spec §3 inv. 1) is
a hypothesis. -/
theorem claim_C7_delete_semantics {T : Type} (ds : JsonFileDatastore T)
    (k : String) (hwf : (ds.content.map Prod.fst).Nodup) :
    (get ds k = none → (delete ds k).1 = false ∧ (delete ds k).2 = ds) ∧
    (∀ v, get ds k = some v →
      (delete ds k).1 = true ∧
      has (delete ds k).2 k = false ∧
      get (delete ds k).2 k = none ∧
      ∀ k', k' ≠ k → get (delete ds k).2 k' = get ds k') := by
  constructor
  · intro h
    refine ⟨?_, ?_⟩
    · simp only [get] at h
      simp [delete, mapRemove_fst, h]
    · simp only [get] at h
      simp [delete, mapRemove_absent ds.content k h]
  · intro v h
    simp only [get] at h
    refine ⟨?_, ?_, ?_, ?_⟩
    · simp [delete, mapRemove_fst, h]
    · simp [delete, has, mapContains_eq_isSome, mapGet_mapRemove_self ds.content k hwf]
    · simp [delete, get, mapGet_mapRemove_self ds.content k hwf]
    · intro k' hk'
      simp [delete, get, mapGet_mapRemove_ne ds.content k k' hk']

/-- Witness for C7 at a concrete two-entry datastore. -/
theorem claim_C7_witness :
    (delete (⟨true, [("a", (1 : Nat)), ("b", 2)]⟩ : JsonFileDatastore Nat) "a").1 = true ∧
    has (delete (⟨true, [("a", (1 : Nat)), ("b", 2)]⟩ : JsonFileDatastore Nat) "a").2 "a" = false ∧
    get (delete (⟨true, [("a", (1 : Nat)), ("b", 2)]⟩ : JsonFileDatastore Nat) "a").2 "b" = some 2 := by
  have h := claim_C7_delete_semantics
    (⟨true, [("a", (1 : Nat)), ("b", 2)]⟩ : JsonFileDatastore Nat) "a" (by decide)
  have h2 := h.2 1 (by decide)
  refine ⟨h2.1, h2.2.1, ?_⟩
  rw [h2.2.2.2 "b" (by decide)]
  decide

/-- C10: after `put k v`, `get k` returns `v` and `has k` is `true`; a
second `put` on the same key overwrites (the mapping does not grow and
`get` sees the new value); and `has` agrees with `get` being some. -/
theorem claim_C10_put_get_has {T : Type} (ds : JsonFileDatastore T)
    (k k' : String) (v v' : T) :
    get (put ds k v) k = some v ∧
    has (put ds k v) k = true ∧
    get (put (put ds k v) k v') k = some v' ∧
    ((put (put ds k v) k v').content).length = ((put ds k v).content).length ∧
    has ds k' = (get ds k').isSome := by
  refine ⟨?_, ?_, ?_, ?_, ?_⟩
  · simp [get, put, mapGet_insert_self]
  · simp [has, put, mapContains_eq_isSome, mapGet_insert_self]
  · simp [get, put, mapGet_insert_self]
  · exact length_mapInsert_present _ _ _ (by simp [put, mapGet_insert_self])
  · simp [has, get, mapContains_eq_isSome]

/-- C5: opening a nonexistent path, a zero-byte file, or a file holding
the JSON literal `null` each succeeds with an empty mapping, on which
every `get` returns nothing and every `has` returns `false` (the
nonexistent-path branch returns before any filesystem access). -/
theorem claim_C5_empty_open {T : Type} (c : Codec T) (hp : Bool) :
    new c hp none = .ok ⟨hp, []⟩ ∧
    new c hp (some .empty) = .ok ⟨hp, []⟩ ∧
    new c hp (some (.json .null)) = .ok ⟨hp, []⟩ ∧
    ∀ k : String, get (⟨hp, []⟩ : JsonFileDatastore T) k = none ∧
      has (⟨hp, []⟩ : JsonFileDatastore T) k = false :=
  ⟨rfl, rfl, rfl, fun _ => ⟨rfl, rfl⟩⟩

/-- C9: when the destination path has no parent directory, `flush`
returns the "couldn't get parent directory" error, no temporary file is
created, nothing is written, and the destination is untouched. -/
theorem claim_C9_flush_no_parent {T : Type} (c : Codec T)
    (ds : JsonFileDatastore T) (env : FlushEnv) (dest : Option FileRepr)
    (h : ds.path_has_parent = false) :
    flush c ds env dest =
      ⟨.error (.other "couldn't get parent directory of destination"),
        dest, false, false⟩ := by
  simp [flush, h]

/-- Witness for C9 at a concrete datastore whose path has no parent. -/
theorem claim_C9_witness :
    flush bytesCodec (⟨false, [("a", [1])]⟩ : JsonFileDatastore (List Nat))
        ⟨true, true, true, true⟩ none =
      ⟨.error (.other "couldn't get parent directory of destination"),
        none, false, false⟩ :=
  claim_C9_flush_no_parent bytesCodec _ _ _ rfl

/-- C3: every failing `flush` (no parent directory, temp-file creation,
write, sync, or rename/persist failure) leaves the destination file's
content exactly as it was before the attempt.  (The in-memory mapping is
untouched by construction: `flush` only reads the datastore.) -/
theorem claim_C3_flush_atomicity {T : Type} (c : Codec T)
    (ds : JsonFileDatastore T) (env : FlushEnv) (dest : Option FileRepr)
    (e : IoError) (h : (flush c ds env dest).result = .error e) :
    (flush c ds env dest).dest = dest := by
  by_cases h1 : ds.path_has_parent = false
  · simp [flush, h1]
  · by_cases h2 : env.tempCreateOk = false
    · simp [flush, h1, h2]
    · by_cases h3 : env.writeOk = false
      · simp [flush, h1, h2, h3]
      · by_cases h4 : env.syncOk = false
        · simp [flush, h1, h2, h3, h4]
        · by_cases h5 : env.persistOk = false
          · simp [flush, h1, h2, h3, h4, h5]
          · exfalso
            simp [flush, h1, h2, h3, h4, h5] at h

/-- Witness for C3: a failing temp-file creation leaves the existing
destination content in place. -/
theorem claim_C3_witness :
    (flush bytesCodec (⟨true, [("a", [1])]⟩ : JsonFileDatastore (List Nat))
        ⟨false, true, true, true⟩ (some .empty)).dest = some .empty :=
  claim_C3_flush_atomicity bytesCodec _ _ _
    (.other "temporary file creation failed") rfl

/-! ### Lemmas about the query pipeline -/

theorem insertBy_perm {α : Type} (c : α → α → Ordering) (x : α) (l : List α) :
    List.Perm (insertBy c x l) (x :: l) := by
  induction l with
  | nil => exact List.Perm.refl _
  | cons y ys ih =>
    simp only [insertBy]
    by_cases hc : c x y = .gt
    · simp only [hc, if_true]
      exact (ih.cons y).trans (List.Perm.swap x y ys)
    · simp only [hc, if_false]
      exact List.Perm.refl _

theorem sortBy_perm {α : Type} (c : α → α → Ordering) (l : List α) :
    List.Perm (sortBy c l) l := by
  induction l with
  | nil => exact List.Perm.refl _
  | cons x xs ih =>
    exact (insertBy_perm c x (sortBy c xs)).trans (ih.cons x)

theorem mem_filters_foldl {T : Type} (cmp : T → T → Ordering)
    (fs : List (Filter T)) (acc : List (String × T)) (x : String × T)
    (h : x ∈ fs.foldl
      (fun acc f => acc.filter fun kv => filterPasses cmp f kv.1 kv.2) acc) :
    x ∈ acc := by
  induction fs generalizing acc with
  | nil => simpa using h
  | cons f rest ih =>
    simp only [List.foldl_cons] at h
    exact List.mem_of_mem_filter (ih _ h)

theorem mem_of_mem_survivors {T : Type} (cmp : T → T → Ordering)
    (entries : List (String × T)) (q : Query T) (x : String × T)
    (h : x ∈ survivors cmp entries q) : x ∈ entries := by
  simp only [survivors] at h
  exact List.mem_of_mem_filter (mem_filters_foldl cmp q.filters _ x h)

theorem mem_of_mem_query {T : Type} (cmp : T → T → Ordering) (dflt : T)
    (ds : JsonFileDatastore T) (q : Query T) (x : String × T)
    (h : x ∈ query cmp dflt ds q) :
    x ∈ ds.content.map fun kv => (kv.1, if q.keys_only then dflt else kv.2) := by
  simp only [query, naive_apply_query] at h
  have h1 := List.mem_of_mem_drop (List.mem_of_mem_take h)
  have h2 := (sortBy_perm (ordersCmp cmp q.orders) _).mem_iff.mp h1
  exact mem_of_mem_survivors cmp _ q x h2

/-! ### Claim theorems: query pipeline -/

/-- C4: on the datastore holding exactly `foo1:[6,7,8]`, `foo2:[6,7,8]`,
`foo3:[7,8,9]`, `foo4:[10,11,12]`, `foo5:[13,14,15]`, `bar1:[0,255,127]`,
the query with prefix `"fo"`, one filter "value NotEqual [6,7,8]", one
order "by key descending", skip 1, unbounded limit (`u64::MAX`), and
`keys_only` false returns exactly
`[("foo4",[10,11,12]), ("foo3",[7,8,9])]` in that order. -/
theorem claim_C4_query_concrete :
    query cmpBytes []
      (put (put (put (put (put (put (⟨true, []⟩ : JsonFileDatastore (List Nat))
        "foo1" [6, 7, 8]) "foo2" [6, 7, 8]) "foo3" [7, 8, 9])
        "foo4" [10, 11, 12]) "foo5" [13, 14, 15]) "bar1" [0, 255, 127])
      ⟨"fo", [⟨.valueCompare [6, 7, 8], .notEqual⟩], [.byKeyDesc],
        1, 2 ^ 64 - 1, false⟩ =
    [("foo4", [10, 11, 12]), ("foo3", [7, 8, 9])] := by
  decide

/-- C6: for every datastore state and every query with `keys_only` set,
every pair in the result has the value type's default value, regardless
of the stored content. -/
theorem claim_C6_keys_only_projection {T : Type} (cmp : T → T → Ordering)
    (dflt : T) (ds : JsonFileDatastore T) (q : Query T)
    (h : q.keys_only = true) :
    ∀ kv ∈ query cmp dflt ds q, kv.2 = dflt := by
  intro kv hkv
  have h1 := mem_of_mem_query cmp dflt ds q kv hkv
  simp only [h, if_true, List.mem_map] at h1
  obtain ⟨a, -, ha⟩ := h1
  rw [← ha]

/-- Witness for C6: a keys-only query over a concrete two-entry
datastore returns the stored key with the default (empty) value. -/
theorem claim_C6_witness :
    (("a", ([] : List Nat)) ∈ query cmpBytes []
      (⟨true, [("a", [1, 2]), ("b", [3])]⟩ : JsonFileDatastore (List Nat))
      ⟨"", [], [], 0, 10, true⟩) ∧
    ("a", ([] : List Nat)).2 = ([] : List Nat) :=
  ⟨by decide,
   claim_C6_keys_only_projection cmpBytes []
     (⟨true, [("a", [1, 2]), ("b", [3])]⟩ : JsonFileDatastore (List Nat))
     ⟨"", [], [], 0, 10, true⟩ rfl ("a", []) (by decide)⟩

/-- C8: if the query's `skip` is at least the number of entries that
survive prefix selection and filtering, or its `limit` is 0, the result
is empty. -/
theorem claim_C8_pagination_boundary {T : Type} (cmp : T → T → Ordering)
    (dflt : T) (ds : JsonFileDatastore T) (q : Query T)
    (h : q.skip ≥ (survivors cmp
        (ds.content.map fun kv => (kv.1, if q.keys_only then dflt else kv.2))
        q).length ∨ q.limit = 0) :
    query cmp dflt ds q = [] := by
  rcases h with h | h
  · simp only [query, naive_apply_query]
    rw [List.drop_eq_nil_of_le, List.take_nil]
    rw [(sortBy_perm (ordersCmp cmp q.orders) _).length_eq]
    exact h
  · simp [query, naive_apply_query, h]

/-- Witness for C8: skipping past the two matching entries of a concrete
datastore yields an empty result. -/
theorem claim_C8_witness :
    query cmpBytes []
      (⟨true, [("a", [1, 2]), ("b", [3])]⟩ : JsonFileDatastore (List Nat))
      ⟨"", [], [], 2, 10, false⟩ = [] :=
  claim_C8_pagination_boundary cmpBytes []
    (⟨true, [("a", [1, 2]), ("b", [3])]⟩ : JsonFileDatastore (List Nat))
    ⟨"", [], [], 2, 10, false⟩ (Or.inl (by decide))

/-! ### Load rejection -/

theorem loadObjectGo_fails {T : Type} (c : Codec T)
    (fields : List (String × Value)) (out : List (String × T))
    (h : ∃ kv ∈ fields, c.from_value kv.2 = none) :
    loadObjectGo c fields out = .error (.invalidData "invalid value") := by
  induction fields generalizing out with
  | nil => simp at h
  | cons kv rest ih =>
    obtain ⟨kv', hmem, hdec⟩ := h
    rcases List.mem_cons.mp hmem with he | hm
    · rw [he] at hdec
      simp [loadObjectGo, hdec]
    · cases hc : c.from_value kv.2 with
      | some v =>
        simp only [loadObjectGo, hc]
        exact ih _ ⟨kv', hm, hdec⟩
      | none => simp [loadObjectGo, hc]

/-- C2: opening an existing file that is not valid JSON, or is valid
JSON with a non-object non-null top level, or is a JSON object with a
value that fails to decode into `T`, fails the whole call with an
`InvalidData` error and produces no datastore (hence no partial
mapping). -/
theorem claim_C2_load_rejection {T : Type} (c : Codec T) (hp : Bool)
    (f : FileRepr) (h : badFile c f) :
    ∃ msg, new c hp (some f) = .error (.invalidData msg) := by
  cases f with
  | empty => simp [badFile] at h
  | notJson => exact ⟨"JSON parse error", rfl⟩
  | json v =>
    cases v with
    | null => simp [badFile] at h
    | bool b => exact ⟨"expected JSON object", rfl⟩
    | num n => exact ⟨"expected JSON object", rfl⟩
    | str s => exact ⟨"expected JSON object", rfl⟩
    | arr elems => exact ⟨"expected JSON object", rfl⟩
    | obj fields =>
      refine ⟨"invalid value", ?_⟩
      simp only [badFile] at h
      simp [new, loadObjectGo_fails c fields [] h]

/-- Witness for C2: a JSON array, invalid JSON, and an object whose
value does not decode as `Vec<u8>` are each rejected. -/
theorem claim_C2_witness :
    (∃ m1, new bytesCodec true (some (.json (.arr []))) =
      .error (.invalidData m1)) ∧
    (∃ m2, new bytesCodec true (some .notJson) = .error (.invalidData m2)) ∧
    (∃ m3, new bytesCodec true (some (.json (.obj [("k", .str "x")]))) =
      .error (.invalidData m3)) :=
  ⟨claim_C2_load_rejection bytesCodec true (.json (.arr [])) trivial,
   claim_C2_load_rejection bytesCodec true .notJson trivial,
   claim_C2_load_rejection bytesCodec true (.json (.obj [("k", .str "x")]))
     ⟨("k", .str "x"), List.mem_singleton.mpr rfl, rfl⟩⟩

/-! ### Round-trip persistence -/

theorem putAll_content {T : Type} (ds : JsonFileDatastore T)
    (pairs : List (String × T)) :
    (putAll ds pairs).content =
      pairs.foldl (fun m kv => mapInsert m kv.1 kv.2) ds.content := by
  induction pairs generalizing ds with
  | nil => rfl
  | cons kv rest ih => simpa [putAll, put, List.foldl_cons] using ih ⟨ds.path_has_parent, mapInsert ds.content kv.1 kv.2⟩

theorem mapGet_foldl_insert_not_mem {T : Type} (pairs : List (String × T))
    (m0 : List (String × T)) (k : String) (h : k ∉ pairs.map Prod.fst) :
    mapGet (pairs.foldl (fun m kv => mapInsert m kv.1 kv.2) m0) k =
      mapGet m0 k := by
  induction pairs generalizing m0 with
  | nil => rfl
  | cons kv rest ih =>
    simp only [List.map_cons, List.mem_cons, not_or] at h
    simp only [List.foldl_cons]
    rw [ih _ h.2, mapGet_insert_ne _ _ _ _ h.1]

theorem mapGet_foldl_insert_mem {T : Type} (pairs : List (String × T))
    (m0 : List (String × T)) (k : String) (v : T)
    (hnd : (pairs.map Prod.fst).Nodup) (hmem : (k, v) ∈ pairs) :
    mapGet (pairs.foldl (fun m kv => mapInsert m kv.1 kv.2) m0) k = some v := by
  induction pairs generalizing m0 with
  | nil => simp at hmem
  | cons kv rest ih =>
    simp only [List.map_cons, List.nodup_cons] at hnd
    simp only [List.foldl_cons]
    rcases List.mem_cons.mp hmem with he | hm
    · have hk : kv.1 = k := by rw [← he]
      have hnot : k ∉ rest.map Prod.fst := hk ▸ hnd.1
      rw [mapGet_foldl_insert_not_mem rest _ k hnot, hk]
      have hv : kv.2 = v := by rw [← he]
      rw [hv, mapGet_insert_self]
    · exact ih _ hnd.2 hm

theorem mem_keys_mapInsert {T : Type} (m : List (String × T)) (k k' : String)
    (v : T) (h : k' ∈ (mapInsert m k v).map Prod.fst) :
    k' = k ∨ k' ∈ m.map Prod.fst := by
  induction m with
  | nil => simpa [mapInsert] using h
  | cons kv rest ih =>
    by_cases hk : kv.1 = k
    · simp only [mapInsert, hk, if_true, List.map_cons, List.mem_cons] at h
      rcases h with h | h
      · exact Or.inl h
      · exact Or.inr (by simp [h])
    · simp only [mapInsert, hk, if_false, List.map_cons, List.mem_cons] at h
      rcases h with h | h
      · exact Or.inr (by simp [h])
      · rcases ih h with h1 | h1
        · exact Or.inl h1
        · exact Or.inr (by simp [h1])

theorem nodupKeys_mapInsert {T : Type} (m : List (String × T)) (k : String)
    (v : T) (h : (m.map Prod.fst).Nodup) :
    ((mapInsert m k v).map Prod.fst).Nodup := by
  induction m with
  | nil => simp [mapInsert]
  | cons kv rest ih =>
    simp only [List.map_cons, List.nodup_cons] at h
    by_cases hk : kv.1 = k
    · simp only [mapInsert, hk, if_true, List.map_cons, List.nodup_cons]
      exact ⟨hk ▸ h.1, h.2⟩
    · simp only [mapInsert, hk, if_false, List.map_cons, List.nodup_cons]
      refine ⟨?_, ih h.2⟩
      intro hc
      rcases mem_keys_mapInsert rest k kv.1 v hc with h1 | h1
      · exact hk h1
      · exact h.1 h1

theorem nodupKeys_foldl_insert {T : Type} (pairs : List (String × T))
    (m0 : List (String × T)) (h : (m0.map Prod.fst).Nodup) :
    (((pairs.foldl (fun m kv => mapInsert m kv.1 kv.2) m0)).map Prod.fst).Nodup := by
  induction pairs generalizing m0 with
  | nil => exact h
  | cons kv rest ih =>
    simp only [List.foldl_cons]
    exact ih _ (nodupKeys_mapInsert m0 kv.1 kv.2 h)

theorem mem_of_mapGet_some {T : Type} (m : List (String × T)) (k : String)
    (v : T) (h : mapGet m k = some v) : (k, v) ∈ m := by
  induction m with
  | nil => simp [mapGet] at h
  | cons kv rest ih =>
    by_cases hk : kv.1 = k
    · simp only [mapGet, hk, if_true, Option.some.injEq] at h
      exact List.mem_cons.mpr (Or.inl (by rw [← hk, ← h]))
    · simp only [mapGet, hk, if_false] at h
      exact List.mem_cons.mpr (Or.inr (ih h))

theorem loadObjectGo_roundtrip {T : Type} (c : Codec T)
    (hc : ∀ t, c.from_value (c.to_value t) = some t)
    (l : List (String × T)) (out : List (String × T)) :
    loadObjectGo c (serializeContent c l) out =
      .ok (l.foldl (fun m kv => mapInsert m kv.1 kv.2) out) := by
  induction l generalizing out with
  | nil => rfl
  | cons kv rest ih =>
    simp only [serializeContent, List.map_cons, loadObjectGo, hc kv.2,
      List.foldl_cons]
    exact ih _

theorem flush_ok_dest {T : Type} (c : Codec T) (ds : JsonFileDatastore T)
    (env : FlushEnv) (dest : Option FileRepr)
    (h : (flush c ds env dest).result = .ok ()) :
    (flush c ds env dest).dest =
      some (.json (.obj (serializeContent c ds.content))) := by
  by_cases h1 : ds.path_has_parent = false
  · simp [flush, h1] at h
  · by_cases h2 : env.tempCreateOk = false
    · simp [flush, h1, h2] at h
    · by_cases h3 : env.writeOk = false
      · simp [flush, h1, h2, h3] at h
      · by_cases h4 : env.syncOk = false
        · simp [flush, h1, h2, h3, h4] at h
        · by_cases h5 : env.persistOk = false
          · simp [flush, h1, h2, h3, h4, h5] at h
          · simp [flush, h1, h2, h3, h4, h5]

/-- C1: starting from an empty datastore, `put` each pair of a
unique-keyed list, `flush` (succeeding), and reopen a datastore from the
flushed file: `get` on every stored key returns the original value.  The
serde round-trip law for the value type's codec is a hypothesis. -/
theorem claim_C1_roundtrip_persistence {T : Type} (c : Codec T)
    (hc : ∀ t, c.from_value (c.to_value t) = some t)
    (pairs : List (String × T)) (hnd : (pairs.map Prod.fst).Nodup)
    (hp : Bool) (env : FlushEnv) (dest : Option FileRepr)
    (hflush : (flush c (putAll ⟨hp, []⟩ pairs) env dest).result = .ok ()) :
    ∃ ds', new c hp (flush c (putAll ⟨hp, []⟩ pairs) env dest).dest = .ok ds' ∧
      ∀ kv ∈ pairs, get ds' kv.1 = some kv.2 := by
  have hdest := flush_ok_dest c (putAll ⟨hp, []⟩ pairs) env dest hflush
  have hcontent := putAll_content (⟨hp, []⟩ : JsonFileDatastore T) pairs
  refine ⟨⟨hp, ((putAll (⟨hp, []⟩ : JsonFileDatastore T) pairs).content).foldl
    (fun m kv => mapInsert m kv.1 kv.2) []⟩, ?_, ?_⟩
  · rw [hdest]
    simp [new, loadObjectGo_roundtrip c hc]
  · intro kv hkv
    have hnd2 : (((putAll (⟨hp, []⟩ : JsonFileDatastore T) pairs).content).map
        Prod.fst).Nodup := by
      rw [hcontent]
      exact nodupKeys_foldl_insert pairs [] (by simp)
    have hget : mapGet ((putAll (⟨hp, []⟩ : JsonFileDatastore T) pairs).content)
        kv.1 = some kv.2 := by
      rw [hcontent]
      exact mapGet_foldl_insert_mem pairs [] kv.1 kv.2 hnd hkv
    have hmem := mem_of_mapGet_some _ kv.1 kv.2 hget
    exact mapGet_foldl_insert_mem _ [] kv.1 kv.2 hnd2 hmem

theorem decodeBytes_map (l : List Nat) :
    decodeBytes (l.map fun (n : Nat) => Value.num (n : Int)) = some l := by
  induction l with
  | nil => rfl
  | cons n rest ih =>
    simp only [List.map_cons, decodeBytes]
    rw [ih]
    norm_num

/-- Round-trip law of the `Vec<u8>` codec, used by the C1 witness. -/
theorem bytesCodec_roundtrip (l : List Nat) :
    bytesCodec.from_value (bytesCodec.to_value l) = some l := by
  simp [bytesCodec, decodeBytes_map]

/-- Witness for C1 at the two pairs of the repository's
`values_store_and_reload` test. -/
theorem claim_C1_witness :
    ∃ ds', new bytesCodec true
        (flush bytesCodec (putAll (⟨true, []⟩ : JsonFileDatastore (List Nat))
          [("foo", [1, 2, 3]), ("bar", [0, 255, 127])])
          ⟨true, true, true, true⟩ none).dest = .ok ds' ∧
      get ds' "foo" = some [1, 2, 3] ∧ get ds' "bar" = some [0, 255, 127] := by
  obtain ⟨ds', hnew, hall⟩ := claim_C1_roundtrip_persistence bytesCodec
    bytesCodec_roundtrip [("foo", [1, 2, 3]), ("bar", [0, 255, 127])]
    (by decide) true ⟨true, true, true, true⟩ none rfl
  exact ⟨ds', hnew, hall ("foo", [1, 2, 3]) (by decide),
    hall ("bar", [0, 255, 127]) (by decide)⟩

end JsonDatastore
